import Mathlib

/-!
Verification development for the file-finder bot's search-index,
disambiguation and session-state subsystem.  The Python source
(`file_finder_bot.py`) is shallowly embedded: pure string processing is
modelled on `List Char` / `String`, the per-user session dictionary as a
`UserData` structure, timestamps and megabyte sizes as rationals, and the
file system / AI capability as explicit oracles passed in as arguments.
-/

namespace FileFinderBot

/-- The path separator (`os.sep`); the embedding fixes the POSIX value. -/
def osSep : Char := '/'

/-- The path separator as a one-character string. -/
def sepStr : String := "/"

/-- Python's `\s` / `str.isspace` character class (ASCII part). -/
def pySpace (c : Char) : Bool :=
  c = ' ' || c = '\t' || c = '\n' || c = '\r' || c = '\x0b' || c = '\x0c'

/-- A character collapsed by the `[\s_]+` regular expression:
whitespace or underscore. -/
def spaceOrUnder (c : Char) : Bool :=
  pySpace c || c = '_'

/-- `str.lower` on a character list (ASCII). -/
def lowerL (l : List Char) : List Char :=
  l.map Char.toLower

/-- Helper for `collapseRuns`: the flag records whether the previous
character belonged to a `[\s_]+` run already replaced by a space. -/
def collapseAux : Bool → List Char → List Char
  | _, [] => []
  | inRun, c :: cs =>
    if spaceOrUnder c then
      if inRun then collapseAux true cs else ' ' :: collapseAux true cs
    else
      c :: collapseAux false cs

/-- `re.sub(r'[\s_]+', ' ', s)`: every maximal run of whitespace or
underscores becomes a single space. -/
def collapseRuns (l : List Char) : List Char :=
  collapseAux false l

/-- Python `str.strip()` on a character list. -/
def pyStrip (l : List Char) : List Char :=
  ((l.dropWhile pySpace).reverse.dropWhile pySpace).reverse

/-- Python `str.strip()` on a string. -/
def pyStripS (s : String) : String :=
  ⟨pyStrip s.data⟩

/-- Helper for `pySplit`: `cur` is the current word accumulated in
reverse order. -/
def pySplitAux (cur : List Char) : List Char → List (List Char)
  | [] => if cur.isEmpty then [] else [cur.reverse]
  | c :: cs =>
    if pySpace c then
      if cur.isEmpty then pySplitAux [] cs else cur.reverse :: pySplitAux [] cs
    else
      pySplitAux (c :: cur) cs

/-- Python `str.split()` with no arguments: split on whitespace runs,
dropping empty words. -/
def pySplit (l : List Char) : List (List Char) :=
  pySplitAux [] l

/-- Case-insensitive match of the literal `Sherlock` at the head of the
list; returns the remainder on success. -/
def matchSherlock (l : List Char) : Option (List Char) :=
  if (l.take 8).map Char.toLower = "sherlock".data then some (l.drop 8) else none

/-- `SHERLOCK_PREFIX_PATTERN.sub('', s)` for the anchored pattern
`^\s*Sherlock\s*[—_-]?\s*` (case-insensitive): strips the leading noise
label when present, otherwise leaves the input unchanged. -/
def sherlockSub (l : List Char) : List Char :=
  match matchSherlock (l.dropWhile pySpace) with
  | none => l
  | some rest =>
    let r1 := rest.dropWhile pySpace
    let r2 := match r1 with
              | [] => []
              | c :: cs => if c = '—' || c = '_' || c = '-' then cs else r1
    r2.dropWhile pySpace

/-- `os.path.basename`: the portion after the last separator. -/
def basename (s : String) : String :=
  ⟨(s.data.reverse.takeWhile (fun c => c ≠ osSep)).reverse⟩

/-- `os.path.dirname`: the portion before the last separator, with
trailing separators stripped unless the head consists only of
separators. -/
def dirname (s : String) : String :=
  let afterRev := s.data.reverse.dropWhile (fun c => c ≠ osSep)
  match afterRev with
  | [] => ""
  | _ =>
    let stripped := afterRev.dropWhile (fun c => c = osSep)
    if stripped.isEmpty then ⟨afterRev.reverse⟩ else ⟨stripped.reverse⟩

/-- Python `needle in haystack` (contiguous substring test) on
character lists. -/
def isSubstrL (w : List Char) : List Char → Bool
  | [] => w.isPrefixOf []
  | c :: rest => w.isPrefixOf (c :: rest) || isSubstrL w rest

/-- Python `s.startswith(p)`. -/
def strStarts (p s : String) : Bool :=
  p.data.isPrefixOf s.data

/-- Python `s.endswith(suf)`. -/
def strEnds (suf s : String) : Bool :=
  suf.data.reverse.isPrefixOf s.data.reverse

/-- The root part of `os.path.splitext` applied to a basename: drops the
final extension, except when every character before the last dot is
itself a dot. -/
def splitextRoot (name : List Char) : List Char :=
  let rev := name.reverse
  let ext := rev.takeWhile (fun c => c ≠ '.')
  match rev.drop ext.length with
  | [] => name
  | _ :: rootRev => if rootRev.any (fun c => c ≠ '.') then rootRev.reverse else name

/-- Python `f.read(n)` on an in-memory content string: the first `n`
characters. -/
def strTake (s : String) (n : Nat) : String :=
  ⟨s.data.take n⟩

/-! ### The matcher (`find_folder_matches`) -/

/-- The normalized word list of a query, from `find_folder_matches`:
`re.sub(r'[\s_]+', ' ', query.lower()).strip().split()`. -/
def queryWords (query : String) : List (List Char) :=
  pySplit (pyStrip (collapseRuns (lowerL query.data)))

/-- The cleaned, lowercased, underscore-normalized display form of a
folder basename, from `find_folder_matches`:
`re.sub(r'[\s_]+', ' ', SHERLOCK_PREFIX_PATTERN.sub('', name).lower()).strip()`. -/
def cleanFolderName (name : String) : List Char :=
  pyStrip (collapseRuns (lowerL (sherlockSub name.data)))

/-- `find_folder_matches(query, folders)`: normalizes the query into
words, returns `[]` when no words remain, otherwise accumulates (in
input order) the folders whose cleaned basename contains every query
word as a substring. -/
def find_folder_matches (query : String) (folders : List String) : List String :=
  let query_words := queryWords query
  if query_words.isEmpty then []
  else
    folders.foldl
      (fun acc folder_path =>
        let cleaned := cleanFolderName (basename folder_path)
        if query_words.all (fun w => isSubstrL w cleaned) then
          acc ++ [folder_path]
        else acc)
      []

/-! ### The catalog (`load_and_extract_person_folders`) and folder
contents (`get_summary_from_folder`, `send_folder_contents`) -/

/-- Lexicographic comparison of character lists by code point, the
order Python's `sorted` uses on strings. -/
def lexLt : List Char → List Char → Bool
  | [], [] => false
  | [], _ :: _ => true
  | _ :: _, [] => false
  | a :: as, b :: bs => if a < b then true else if b < a then false else lexLt as bs

/-- Insert into a sorted list of strings (code-point order). -/
def insertSorted (x : String) : List String → List String
  | [] => [x]
  | y :: ys => if lexLt y.data x.data then y :: insertSorted x ys else x :: y :: ys

/-- Sort a list of strings by code point, as Python's `sorted`. -/
def sortStrings (l : List String) : List String :=
  l.foldr insertSorted []

/-- The person-folder extraction step of `load_and_extract_person_folders`:
the parent directory of each path is kept unless it equals the base
folder (case-insensitively) or has an empty basename; the candidates are
deduplicated and sorted (`sorted(list(unique_person_folders))`). -/
def person_folders_of (paths : List String) (baseFolderName : String) : List String :=
  let baseLower := lowerL baseFolderName.data
  sortStrings
    (((paths.map dirname).filter
        (fun d => lowerL d.data ≠ baseLower && (basename d).data ≠ [])).dedup)

/-- The cleaned folder display name used when matching summary files
(`SHERLOCK_PREFIX_PATTERN.sub('', name).lower().replace('_', ' ')` —
note: no run collapsing and no strip here). -/
def cleanBaseName (name : String) : List Char :=
  (lowerL (sherlockSub name.data)).map (fun c => if c = '_' then ' ' else c)

/-- The summary name agreement test shared by `get_summary_from_folder`
and `send_folder_contents`: the cleaned extension-stripped file name and
the cleaned folder name must be prefixes of one another. -/
def namesMatch (folder_path p : String) : Bool :=
  let base := cleanBaseName (basename folder_path)
  let cleanFile := (lowerL (sherlockSub (splitextRoot (basename p).data))).map
    (fun c => if c = '_' then ' ' else c)
  cleanFile.isPrefixOf base || base.isPrefixOf cleanFile

/-- Extension test for summary files: the lowercased path ends in
`.txt` or `.txt_`. -/
def extTxt (p : String) : Bool :=
  let l : String := ⟨lowerL p.data⟩
  strEnds ".txt" l || strEnds ".txt_" l

/-- Extension test for attachable documents: the lowercased path ends in
`.pdf` or `.pdf_`. -/
def extPdf (p : String) : Bool :=
  let l : String := ⟨lowerL p.data⟩
  strEnds ".pdf" l || strEnds ".pdf_" l

/-- A catalog entry qualifies as the summary for `folder_path` when it
lies under the folder, has a summary extension, and its name agrees with
the folder name. -/
def summaryCandidate (folder_path p : String) : Bool :=
  strStarts (folder_path ++ sepStr) p && extTxt p && namesMatch folder_path p

/-- The summary-file selection loop of `get_summary_from_folder`: the
first qualifying entry wins (the loop breaks). -/
def get_summary_file : List String → String → Option String
  | [], _ => none
  | p :: rest, folder => if summaryCandidate folder p then some p else get_summary_file rest folder

/-- The short-form summary read of `get_summary_from_folder`:
`f.read(500).strip()`, with `"..."` appended when the stripped text
still has exactly 500 characters. -/
def read_summary_short (content : String) : String :=
  let summary := pyStripS (strTake content 500)
  if summary.length = 500 then summary ++ "..." else summary

/-- The full-form summary read of `send_folder_contents`:
`f.read().strip()`. -/
def read_summary_full (content : String) : String :=
  pyStripS content

/-- The collection loop of `send_folder_contents` (file gathering pass):
walks the catalog once, keeping the *latest* qualifying summary file
(no break) and appending every attachable PDF that exists on disk. -/
def sfc_collect_aux (folder : String) (existsF : String → Bool) :
    List String → Option String → List String → Option String × List String
  | [], txt, pdfs => (txt, pdfs)
  | p :: rest, txt, pdfs =>
    if !(strStarts (folder ++ sepStr) p) then
      sfc_collect_aux folder existsF rest txt pdfs
    else if extTxt p then
      if namesMatch folder p then sfc_collect_aux folder existsF rest (some p) pdfs
      else sfc_collect_aux folder existsF rest txt pdfs
    else if extPdf p then
      if existsF p then sfc_collect_aux folder existsF rest txt (pdfs ++ [p])
      else sfc_collect_aux folder existsF rest txt pdfs
    else
      sfc_collect_aux folder existsF rest txt pdfs

/-- File gathering pass of `send_folder_contents` started on an empty
accumulator. -/
def sfc_collect (paths : List String) (folder : String) (existsF : String → Bool) :
    Option String × List String :=
  sfc_collect_aux folder existsF paths none []

/-- A catalog entry qualifies as an attachable document for
`send_folder_contents` when it lies under the folder, is not a summary
file, has a PDF extension and exists on disk. -/
def pdfCandidate (folder : String) (existsF : String → Bool) (p : String) : Bool :=
  strStarts (folder ++ sepStr) p && !extTxt p && extPdf p && existsF p

/-! ### The document budget loop of `send_folder_contents` -/

/-- Which limit a truncation notice names. -/
inductive TruncNotice where
  | countLimit
  | sizeLimit
  deriving DecidableEq, Repr

/-- The budget loop of `send_folder_contents`: iterates the collected
PDFs in catalog order.  For each file it first determines the size in
megabytes (`os.path.getsize`; `none` models an `OSError`, which skips
the file non-fatally), then checks the count limit, then the cumulative
size limit; the first breach emits a notice and breaks. -/
def select_pdfs_loop (sizeOf : String → Option ℚ) (maxCount : Nat) (maxTotal : ℚ) :
    List String → List String → ℚ → List String × ℚ × Option TruncNotice
  | [], acc, tot => (acc, tot, none)
  | p :: rest, acc, tot =>
    match sizeOf p with
    | none => select_pdfs_loop sizeOf maxCount maxTotal rest acc tot
    | some sz =>
      if maxCount ≤ acc.length then (acc, tot, some TruncNotice.countLimit)
      else if maxTotal < tot + sz then (acc, tot, some TruncNotice.sizeLimit)
      else select_pdfs_loop sizeOf maxCount maxTotal rest (acc ++ [p]) (tot + sz)

/-- The budget loop started on an empty admission list and zero
cumulative size, as `send_folder_contents` does. -/
def select_pdfs (sizeOf : String → Option ℚ) (maxCount : Nat) (maxTotal : ℚ)
    (pdfs : List String) : List String × ℚ × Option TruncNotice :=
  select_pdfs_loop sizeOf maxCount maxTotal pdfs [] 0

/-! ### Session state and the rate limiter -/

/-- The bot mode stored in `user_data['mode']`. -/
inductive Mode where
  | search
  | ai
  deriving DecidableEq, Repr

/-- The per-user session dictionary (`context.user_data`). -/
structure UserData where
  mode : Mode
  pdfContextPath : Option String
  currentMatches : Option (List String)
  currentMatchIndex : Option Int
  lastQuery : Option String
  geminiRequests : List ℚ
  broadcastOptIn : Bool
  deriving DecidableEq, Repr

/-- The pruning step of the rate limiter: keep the timestamps within the
trailing 60 seconds (`current_time - t < 60`). -/
def prune_requests (log : List ℚ) (now : ℚ) : List ℚ :=
  log.filter (fun t => now - t < 60)

/-- The sliding-window rate limiter of `gemini_query` (lines 750-769):
prune the log, deny when the pruned log already holds `maxPerMinute`
entries, otherwise append `now`.  Returns the decision and the updated
log. -/
def rate_limiter_allow (log : List ℚ) (now : ℚ) (maxPerMinute : Nat) : Bool × List ℚ :=
  let pruned := prune_requests log now
  if maxPerMinute ≤ pruned.length then (false, pruned)
  else (true, pruned ++ [now])

/-- Driver folding `rate_limiter_allow` over a sequence of request
times, starting from an empty log; returns the per-call decisions and
the final log. -/
def run_allow (maxPerMinute : Nat) (times : List ℚ) : List Bool × List ℚ :=
  times.foldl
    (fun acc t =>
      let r := rate_limiter_allow acc.2 t maxPerMinute
      (acc.1 ++ [r.1], r.2))
    ([], [])

/-! ### The AI handler (`gemini_query`) -/

/-- The outcome of the opaque AI capability: an exception, or a response
carrying the given text (the empty string models a missing/empty
`response.text`). -/
inductive AiOutcome where
  | err
  | ok (text : String)
  deriving DecidableEq, Repr

/-- The user-visible outcome of one `gemini_query` call. -/
inductive GeminiEvent where
  | disabled
  | rateLimitNotice
  | sizeLimitNotice
  | aiErrorDoc
  | answeredDoc
  | noAnswerDoc
  | aiErrorGeneral
  | answeredGeneral
  | noAnswerGeneral
  deriving DecidableEq, Repr

/-- The result of one `gemini_query` call: the updated session state,
the user-visible event, and whether the external AI capability was
invoked. -/
structure GeminiResult where
  st : UserData
  event : GeminiEvent
  aiCalled : Bool
  deriving DecidableEq, Repr

/-- Truthiness of the stored document path combined with
`os.path.exists`, as in `if pdf_context_path and os.path.exists(...)`. -/
def hasDocContext (existsF : String → Bool) : Option String → Bool
  | none => false
  | some p => p ≠ "" && existsF p

/-- `gemini_query` (state and decision structure, lines 733-887):
indicates "disabled" without touching state; otherwise prunes the
timestamp log, denies over-limit requests by resetting the mode and
clearing the document context; otherwise appends the timestamp and
dispatches on the document context.  With a document: a file over the AI
size budget pops the freshly appended timestamp, clears the context and
resets the mode; an AI exception leaves state unchanged; a usable or
unusable answer both leave state unchanged (the "no usable answer" reply
text claims a mode reset but the code performs none).  Without a
document the general branch likewise leaves state unchanged. -/
def gemini_query (enabled : Bool) (maxReq : Nat) (maxAiMB : ℚ)
    (sizeMB : String → ℚ) (existsF : String → Bool) (ai : AiOutcome)
    (st : UserData) (now : ℚ) : GeminiResult :=
  if !enabled then ⟨st, GeminiEvent.disabled, false⟩
  else
    let pruned := prune_requests st.geminiRequests now
    if maxReq ≤ pruned.length then
      ⟨{ st with geminiRequests := pruned, pdfContextPath := none, mode := Mode.search },
       GeminiEvent.rateLimitNotice, false⟩
    else
      let st2 := { st with geminiRequests := pruned ++ [now] }
      if hasDocContext existsF st2.pdfContextPath then
        match st2.pdfContextPath with
        | none => ⟨st2, GeminiEvent.disabled, false⟩
        | some p =>
          if maxAiMB < sizeMB p then
            ⟨{ st2 with geminiRequests := (pruned ++ [now]).dropLast,
                        pdfContextPath := none, mode := Mode.search },
             GeminiEvent.sizeLimitNotice, false⟩
          else
            match ai with
            | AiOutcome.err => ⟨st2, GeminiEvent.aiErrorDoc, true⟩
            | AiOutcome.ok t =>
              if t ≠ "" then ⟨st2, GeminiEvent.answeredDoc, true⟩
              else ⟨st2, GeminiEvent.noAnswerDoc, true⟩
      else
        match ai with
        | AiOutcome.err => ⟨st2, GeminiEvent.aiErrorGeneral, true⟩
        | AiOutcome.ok t =>
          if t ≠ "" then ⟨st2, GeminiEvent.answeredGeneral, true⟩
          else ⟨st2, GeminiEvent.noAnswerGeneral, true⟩

/-! ### The disambiguation pager -/

/-- The inline keyboard of a person card: optional previous/next
navigation targets, the position label data, and the index encoded in
the select button. -/
structure CardMarkup where
  prevTarget : Option Int
  nextTarget : Option Int
  position : Int
  total : Nat
  selectIndex : Int
  deriving DecidableEq, Repr

/-- `generate_person_card_markup(matches, current_index)`: a previous
button iff the index is positive (targeting `index - 1`), a next button
iff the index is below `len(matches) - 1` (targeting `index + 1`). -/
def generate_person_card_markup (matchList : List String) (current_index : Int) : CardMarkup :=
  { prevTarget := if 0 < current_index then some (current_index - 1) else none,
    nextTarget := if current_index < (matchList.length : Int) - 1 then some (current_index + 1) else none,
    position := current_index + 1,
    total := matchList.length,
    selectIndex := current_index }

/-- The user-visible outcome of `send_person_card`. -/
inductive CardEvent where
  | invalidIndexAlert
  | rendered (markup : CardMarkup)
  deriving DecidableEq, Repr

/-- `send_person_card` (state and decision structure, lines 449-503):
an index outside `[0, len(matches))` is rejected before any state write
— with an invalid-index alert when the call is an edit coming from a
callback query, silently otherwise; a valid index stores the match list,
index and query text in the session and renders the card. -/
def send_person_card (st : UserData) (matchList : List String) (index : Int)
    (queryText : String) (isEdit hasCallback : Bool) : UserData × Option CardEvent :=
  if !(decide (0 ≤ index) && decide (index < (matchList.length : Int))) then
    (st, if isEdit && hasCallback then some CardEvent.invalidIndexAlert else none)
  else
    ({ st with currentMatches := some matchList,
               currentMatchIndex := some index,
               lastQuery := some queryText },
     some (CardEvent.rendered (generate_person_card_markup matchList index)))

/-! ### AI document selection and cancel -/

/-- The `ask_ai|id` branch of `button_handler` (lines 1236-1265): look
the id up in the shared document table; a missing, empty or deleted path
is an error leaving the session unchanged; otherwise store the path and
enter AI mode.  The second component tells whether the selection
succeeded. -/
def ask_ai_select (st : UserData) (pdfMap : Nat → Option String)
    (existsF : String → Bool) (pdfId : Nat) : UserData × Bool :=
  match pdfMap pdfId with
  | none => (st, false)
  | some p =>
    if p = "" || !existsF p then (st, false)
    else ({ st with pdfContextPath := some p, mode := Mode.ai }, true)

/-- `cancel_command` (lines 967-983): drop the document context and the
pagination state, and return to search mode. -/
def cancel_command (st : UserData) : UserData :=
  { st with pdfContextPath := none,
            currentMatches := none,
            currentMatchIndex := none,
            mode := Mode.search }

/-! ## Supporting lemmas -/

/-- `List.isPrefixOf` on characters means an initial segment. -/
theorem isPrefixOf_iff : ∀ (a b : List Char), a.isPrefixOf b = true ↔ ∃ t, a ++ t = b
  | [], b => by simp [List.isPrefixOf]
  | a :: as, [] => by simp [List.isPrefixOf]
  | a :: as, b :: bs => by
    simp only [List.isPrefixOf, Bool.and_eq_true, beq_iff_eq]
    constructor
    · rintro ⟨rfl, h⟩
      obtain ⟨t, rfl⟩ := (isPrefixOf_iff as bs).1 h
      exact ⟨t, rfl⟩
    · rintro ⟨t, h⟩
      injection h with h1 h2
      exact ⟨h1, (isPrefixOf_iff as bs).2 ⟨t, h2⟩⟩

/-- `isSubstrL` is the contiguous-substring relation, matching Python's
`in` operator on strings. -/
theorem isSubstrL_iff (w : List Char) :
    ∀ (l : List Char), isSubstrL w l = true ↔ ∃ p s, p ++ w ++ s = l
  | [] => by
    simp only [isSubstrL, isPrefixOf_iff]
    constructor
    · rintro ⟨t, h⟩
      exact ⟨[], t, h⟩
    · rintro ⟨p, s, h⟩
      rcases List.append_eq_nil.mp h with ⟨h1, h2⟩
      rcases List.append_eq_nil.mp h1 with ⟨rfl, rfl⟩
      exact ⟨s, h2⟩
  | c :: rest => by
    simp only [isSubstrL, Bool.or_eq_true, isPrefixOf_iff]
    constructor
    · rintro (⟨t, h⟩ | h)
      · exact ⟨[], t, by simpa using h⟩
      · obtain ⟨p, s, rfl⟩ := (isSubstrL_iff w rest).1 h
        exact ⟨c :: p, s, rfl⟩
    · rintro ⟨p, s, h⟩
      match p, h with
      | [], h => exact Or.inl ⟨s, by simpa using h⟩
      | a :: p, h =>
        injection h with h1 h2
        exact Or.inr ((isSubstrL_iff w rest).2 ⟨p, s, h2⟩)

/-- The accumulate-if pattern of the matcher loop is a `filter`. -/
theorem foldl_append_filter (pred : String → Bool) :
    ∀ (l acc : List String),
      l.foldl (fun a x => if pred x then a ++ [x] else a) acc = acc ++ l.filter pred
  | [], acc => by simp
  | x :: xs, acc => by
    by_cases h : pred x <;>
      simp [List.filter_cons, h, foldl_append_filter pred xs]

/-! ## C1: the matcher -/

/-- **C1.** `find_folder_matches` returns exactly the folders whose
cleaned, lowercased, underscore-normalized basename contains every query
word as a substring, in the input order of the folder list (the result
is the `filter` of the folders, hence a sublist); a query normalizing to
zero words yields the empty match set. -/
theorem find_folder_matches_spec (query : String) (folders : List String) :
    (find_folder_matches query folders).Sublist folders ∧
    (queryWords query ≠ [] →
      find_folder_matches query folders =
        folders.filter
          (fun f => (queryWords query).all (fun w => isSubstrL w (cleanFolderName (basename f))))) ∧
    (queryWords query = [] → find_folder_matches query folders = []) ∧
    (∀ f ∈ find_folder_matches query folders, ∀ w ∈ queryWords query,
      ∃ p s, p ++ w ++ s = cleanFolderName (basename f)) := by
  have hfold :
      find_folder_matches query folders =
        if queryWords query = [] then []
        else folders.filter
          (fun f => (queryWords query).all (fun w => isSubstrL w (cleanFolderName (basename f)))) := by
    unfold find_folder_matches
    by_cases h : queryWords query = []
    · simp [h]
    · simp only [h, if_neg h, List.isEmpty_iff, if_false]
      exact foldl_append_filter _ folders []
  refine ⟨?_, ?_, ?_, ?_⟩
  · rw [hfold]
    by_cases h : queryWords query = []
    · simp [h]
    · simp only [if_neg h]
      exact List.filter_sublist folders
  · intro h
    rw [hfold, if_neg h]
  · intro h
    rw [hfold, if_pos h]
  · intro f hf w hw
    by_cases h : queryWords query = []
    · rw [h] at hw
      exact absurd hw (List.not_mem_nil w)
    · rw [hfold, if_neg h, List.mem_filter] at hf
      have := List.all_eq_true.mp hf.2 w hw
      exact (isSubstrL_iff w _).1 this

/-- Witness for C1: the matcher applied to a two-folder catalog and to a
whitespace-only query. -/
theorem find_folder_matches_spec_app :
    find_folder_matches "ivanov petr" ["Dok/G/Ivanov_Petr_01.01", "Dok/G/Ivanov_Ivan_02.02"]
      = ["Dok/G/Ivanov_Petr_01.01"] ∧
    find_folder_matches "   " ["Dok/G/Ivanov_Petr_01.01"] = [] := by
  constructor
  · rw [(find_folder_matches_spec "ivanov petr"
      ["Dok/G/Ivanov_Petr_01.01", "Dok/G/Ivanov_Ivan_02.02"]).2.1 (by decide)]
    decide
  · exact (find_folder_matches_spec "   " ["Dok/G/Ivanov_Petr_01.01"]).2.2.1 (by decide)

/-! ## C2: the document budget loop -/

/-- Step equation: empty input. -/
theorem select_pdfs_loop_nil (sizeOf : String → Option ℚ) (maxCount : Nat) (maxTotal : ℚ)
    (acc : List String) (tot : ℚ) :
    select_pdfs_loop sizeOf maxCount maxTotal [] acc tot = (acc, tot, none) := rfl

/-- Step equation: a size-undeterminable file is skipped. -/
theorem select_pdfs_loop_skip (sizeOf : String → Option ℚ) (maxCount : Nat) (maxTotal : ℚ)
    (p : String) (rest acc : List String) (tot : ℚ) (hs : sizeOf p = none) :
    select_pdfs_loop sizeOf maxCount maxTotal (p :: rest) acc tot
      = select_pdfs_loop sizeOf maxCount maxTotal rest acc tot := by
  simp only [select_pdfs_loop]
  rw [hs]

/-- Step equation: the count limit halts the loop. -/
theorem select_pdfs_loop_count_halt (sizeOf : String → Option ℚ) (maxCount : Nat)
    (maxTotal : ℚ) (p : String) (rest acc : List String) (tot sz : ℚ)
    (hs : sizeOf p = some sz) (hc : maxCount ≤ acc.length) :
    select_pdfs_loop sizeOf maxCount maxTotal (p :: rest) acc tot
      = (acc, tot, some TruncNotice.countLimit) := by
  simp only [select_pdfs_loop]
  rw [hs]
  simp [hc]

/-- Step equation: the size limit halts the loop. -/
theorem select_pdfs_loop_size_halt (sizeOf : String → Option ℚ) (maxCount : Nat)
    (maxTotal : ℚ) (p : String) (rest acc : List String) (tot sz : ℚ)
    (hs : sizeOf p = some sz) (hc : ¬maxCount ≤ acc.length) (ht : maxTotal < tot + sz) :
    select_pdfs_loop sizeOf maxCount maxTotal (p :: rest) acc tot
      = (acc, tot, some TruncNotice.sizeLimit) := by
  simp only [select_pdfs_loop]
  rw [hs]
  simp [hc, ht]

/-- Step equation: a file within both budgets is admitted. -/
theorem select_pdfs_loop_take (sizeOf : String → Option ℚ) (maxCount : Nat)
    (maxTotal : ℚ) (p : String) (rest acc : List String) (tot sz : ℚ)
    (hs : sizeOf p = some sz) (hc : ¬maxCount ≤ acc.length) (ht : ¬maxTotal < tot + sz) :
    select_pdfs_loop sizeOf maxCount maxTotal (p :: rest) acc tot
      = select_pdfs_loop sizeOf maxCount maxTotal rest (acc ++ [p]) (tot + sz) := by
  simp only [select_pdfs_loop]
  rw [hs]
  simp only [if_neg hc, if_neg ht]

/-- The admitted list extends the accumulator by a sublist of the input,
every admitted file has a determinable size, and the cumulative size is
the starting total plus the admitted sizes. -/
theorem select_pdfs_loop_adm (sizeOf : String → Option ℚ) (maxCount : Nat) (maxTotal : ℚ) :
    ∀ (pdfs acc : List String) (tot : ℚ),
      ∃ adm,
        (select_pdfs_loop sizeOf maxCount maxTotal pdfs acc tot).1 = acc ++ adm ∧
        adm.Sublist pdfs ∧
        (∀ p ∈ adm, (sizeOf p).isSome) ∧
        (select_pdfs_loop sizeOf maxCount maxTotal pdfs acc tot).2.1
          = tot + (adm.map (fun p => (sizeOf p).getD 0)).sum
  | [], acc, tot => ⟨[], by simp [select_pdfs_loop_nil]⟩
  | p :: rest, acc, tot => by
    match hs : sizeOf p with
    | none =>
      rw [select_pdfs_loop_skip sizeOf maxCount maxTotal p rest acc tot hs]
      obtain ⟨adm, h1, h2, h3, h4⟩ := select_pdfs_loop_adm sizeOf maxCount maxTotal rest acc tot
      exact ⟨adm, h1, h2.cons p, h3, h4⟩
    | some sz =>
      by_cases hc : maxCount ≤ acc.length
      · rw [select_pdfs_loop_count_halt sizeOf maxCount maxTotal p rest acc tot sz hs hc]
        exact ⟨[], by simp⟩
      · by_cases ht : maxTotal < tot + sz
        · rw [select_pdfs_loop_size_halt sizeOf maxCount maxTotal p rest acc tot sz hs hc ht]
          exact ⟨[], by simp⟩
        · rw [select_pdfs_loop_take sizeOf maxCount maxTotal p rest acc tot sz hs hc ht]
          obtain ⟨adm, h1, h2, h3, h4⟩ :=
            select_pdfs_loop_adm sizeOf maxCount maxTotal rest (acc ++ [p]) (tot + sz)
          refine ⟨p :: adm, by simp [h1], h2.cons₂ p, ?_, ?_⟩
          · intro q hq
            rcases List.mem_cons.mp hq with rfl | hq
            · simp [hs]
            · exact h3 q hq
          · rw [h4]
            simp only [List.map_cons, List.sum_cons, hs, Option.getD_some]
            ring

/-- The count budget is an invariant of the loop. -/
theorem select_pdfs_loop_count (sizeOf : String → Option ℚ) (maxCount : Nat) (maxTotal : ℚ) :
    ∀ (pdfs acc : List String) (tot : ℚ), acc.length ≤ maxCount →
      (select_pdfs_loop sizeOf maxCount maxTotal pdfs acc tot).1.length ≤ maxCount
  | [], acc, tot, h => h
  | p :: rest, acc, tot, h => by
    match hs : sizeOf p with
    | none =>
      rw [select_pdfs_loop_skip sizeOf maxCount maxTotal p rest acc tot hs]
      exact select_pdfs_loop_count sizeOf maxCount maxTotal rest acc tot h
    | some sz =>
      by_cases hc : maxCount ≤ acc.length
      · rw [select_pdfs_loop_count_halt sizeOf maxCount maxTotal p rest acc tot sz hs hc]
        exact h
      · by_cases ht : maxTotal < tot + sz
        · rw [select_pdfs_loop_size_halt sizeOf maxCount maxTotal p rest acc tot sz hs hc ht]
          exact h
        · rw [select_pdfs_loop_take sizeOf maxCount maxTotal p rest acc tot sz hs hc ht]
          exact select_pdfs_loop_count sizeOf maxCount maxTotal rest (acc ++ [p]) (tot + sz)
            (by simp; omega)

/-- The size budget is an invariant of the loop. -/
theorem select_pdfs_loop_size (sizeOf : String → Option ℚ) (maxCount : Nat) (maxTotal : ℚ) :
    ∀ (pdfs acc : List String) (tot : ℚ), tot ≤ maxTotal →
      (select_pdfs_loop sizeOf maxCount maxTotal pdfs acc tot).2.1 ≤ maxTotal
  | [], acc, tot, h => h
  | p :: rest, acc, tot, h => by
    match hs : sizeOf p with
    | none =>
      rw [select_pdfs_loop_skip sizeOf maxCount maxTotal p rest acc tot hs]
      exact select_pdfs_loop_size sizeOf maxCount maxTotal rest acc tot h
    | some sz =>
      by_cases hc : maxCount ≤ acc.length
      · rw [select_pdfs_loop_count_halt sizeOf maxCount maxTotal p rest acc tot sz hs hc]
        exact h
      · by_cases ht : maxTotal < tot + sz
        · rw [select_pdfs_loop_size_halt sizeOf maxCount maxTotal p rest acc tot sz hs hc ht]
          exact h
        · rw [select_pdfs_loop_take sizeOf maxCount maxTotal p rest acc tot sz hs hc ht]
          exact select_pdfs_loop_size sizeOf maxCount maxTotal rest (acc ++ [p]) (tot + sz)
            (le_of_not_lt ht)

/-- When no truncation notice is produced, exactly the size-determinable
files were admitted. -/
theorem select_pdfs_loop_none (sizeOf : String → Option ℚ) (maxCount : Nat) (maxTotal : ℚ) :
    ∀ (pdfs acc : List String) (tot : ℚ),
      (select_pdfs_loop sizeOf maxCount maxTotal pdfs acc tot).2.2 = none →
      (select_pdfs_loop sizeOf maxCount maxTotal pdfs acc tot).1
        = acc ++ pdfs.filter (fun p => (sizeOf p).isSome)
  | [], acc, tot, _ => by simp [select_pdfs_loop_nil]
  | p :: rest, acc, tot, h => by
    match hs : sizeOf p with
    | none =>
      rw [select_pdfs_loop_skip sizeOf maxCount maxTotal p rest acc tot hs] at h ⊢
      rw [select_pdfs_loop_none sizeOf maxCount maxTotal rest acc tot h]
      simp [List.filter_cons, hs]
    | some sz =>
      by_cases hc : maxCount ≤ acc.length
      · rw [select_pdfs_loop_count_halt sizeOf maxCount maxTotal p rest acc tot sz hs hc] at h
        simp at h
      · by_cases ht : maxTotal < tot + sz
        · rw [select_pdfs_loop_size_halt sizeOf maxCount maxTotal p rest acc tot sz hs hc ht] at h
          simp at h
        · rw [select_pdfs_loop_take sizeOf maxCount maxTotal p rest acc tot sz hs hc ht] at h ⊢
          rw [select_pdfs_loop_none sizeOf maxCount maxTotal rest (acc ++ [p]) (tot + sz) h]
          simp [List.filter_cons, hs]

/-- When a truncation notice is produced, the input splits at a first
breaching item: the result equals the clean run over the earlier items,
the breaching item has a determinable size, and the notice names the
limit that item would breach (count checked first). -/
theorem select_pdfs_loop_halt (sizeOf : String → Option ℚ) (maxCount : Nat) (maxTotal : ℚ) :
    ∀ (pdfs acc : List String) (tot : ℚ) (n : TruncNotice),
      (select_pdfs_loop sizeOf maxCount maxTotal pdfs acc tot).2.2 = some n →
      ∃ pre b post, pdfs = pre ++ b :: post ∧
        select_pdfs_loop sizeOf maxCount maxTotal pre acc tot
          = ((select_pdfs_loop sizeOf maxCount maxTotal pdfs acc tot).1,
             (select_pdfs_loop sizeOf maxCount maxTotal pdfs acc tot).2.1, none) ∧
        ∃ sz, sizeOf b = some sz ∧
          ((n = TruncNotice.countLimit ∧
              maxCount ≤ (select_pdfs_loop sizeOf maxCount maxTotal pdfs acc tot).1.length) ∨
           (n = TruncNotice.sizeLimit ∧
              (select_pdfs_loop sizeOf maxCount maxTotal pdfs acc tot).1.length < maxCount ∧
              maxTotal < (select_pdfs_loop sizeOf maxCount maxTotal pdfs acc tot).2.1 + sz))
  | [], acc, tot, n, h => by simp [select_pdfs_loop_nil] at h
  | p :: rest, acc, tot, n, h => by
    match hs : sizeOf p with
    | none =>
      rw [select_pdfs_loop_skip sizeOf maxCount maxTotal p rest acc tot hs] at h ⊢
      obtain ⟨pre, b, post, hsplit, hrun, sz, hsz, hcase⟩ :=
        select_pdfs_loop_halt sizeOf maxCount maxTotal rest acc tot n h
      refine ⟨p :: pre, b, post, by simp [hsplit], ?_, sz, hsz, hcase⟩
      rw [select_pdfs_loop_skip sizeOf maxCount maxTotal p pre acc tot hs]
      exact hrun
    | some sz =>
      by_cases hc : maxCount ≤ acc.length
      · rw [select_pdfs_loop_count_halt sizeOf maxCount maxTotal p rest acc tot sz hs hc] at h ⊢
        refine ⟨[], p, rest, rfl, by simp [select_pdfs_loop_nil], sz, hs, Or.inl ⟨?_, ?_⟩⟩
        · simpa using h.symm
        · simpa using hc
      · by_cases ht : maxTotal < tot + sz
        · rw [select_pdfs_loop_size_halt sizeOf maxCount maxTotal p rest acc tot sz hs hc ht] at h ⊢
          refine ⟨[], p, rest, rfl, by simp [select_pdfs_loop_nil], sz, hs,
            Or.inr ⟨?_, ?_, ?_⟩⟩
          · simpa using h.symm
          · simpa using lt_of_not_le hc
          · simpa using ht
        · rw [select_pdfs_loop_take sizeOf maxCount maxTotal p rest acc tot sz hs hc ht] at h ⊢
          obtain ⟨pre, b, post, hsplit, hrun, sz2, hsz2, hcase⟩ :=
            select_pdfs_loop_halt sizeOf maxCount maxTotal rest (acc ++ [p]) (tot + sz) n h
          refine ⟨p :: pre, b, post, by simp [hsplit], ?_, sz2, hsz2, hcase⟩
          rw [select_pdfs_loop_take sizeOf maxCount maxTotal p pre acc tot sz hs hc ht]
          exact hrun

/-- **C2.** The budget loop of `send_folder_contents` admits attachable
documents in catalog order (the admitted list is a sublist of the
input); it never admits more than `maxCount` documents nor lets the
cumulative admitted size exceed `maxTotal`; a size-undeterminable file
is skipped non-fatally (without a notice, exactly the size-determinable
files are admitted); and the first item that would breach a limit
produces a truncation notice naming that limit — the count limit checked
first — and halts all further admission (the result equals the clean run
over the items before the breaching one). -/
theorem send_folder_contents_budget (sizeOf : String → Option ℚ) (maxCount : Nat)
    (maxTotal : ℚ) (pdfs : List String) (hpos : 0 ≤ maxTotal) :
    (select_pdfs sizeOf maxCount maxTotal pdfs).1.Sublist pdfs ∧
    (select_pdfs sizeOf maxCount maxTotal pdfs).1.length ≤ maxCount ∧
    (select_pdfs sizeOf maxCount maxTotal pdfs).2.1 ≤ maxTotal ∧
    (∀ p ∈ (select_pdfs sizeOf maxCount maxTotal pdfs).1, (sizeOf p).isSome) ∧
    (select_pdfs sizeOf maxCount maxTotal pdfs).2.1
      = ((select_pdfs sizeOf maxCount maxTotal pdfs).1.map (fun p => (sizeOf p).getD 0)).sum ∧
    ((select_pdfs sizeOf maxCount maxTotal pdfs).2.2 = none →
      (select_pdfs sizeOf maxCount maxTotal pdfs).1
        = pdfs.filter (fun p => (sizeOf p).isSome)) ∧
    (∀ n, (select_pdfs sizeOf maxCount maxTotal pdfs).2.2 = some n →
      ∃ pre b post, pdfs = pre ++ b :: post ∧
        select_pdfs sizeOf maxCount maxTotal pre
          = ((select_pdfs sizeOf maxCount maxTotal pdfs).1,
             (select_pdfs sizeOf maxCount maxTotal pdfs).2.1, none) ∧
        ∃ sz, sizeOf b = some sz ∧
          ((n = TruncNotice.countLimit ∧
              (select_pdfs sizeOf maxCount maxTotal pdfs).1.length = maxCount) ∨
           (n = TruncNotice.sizeLimit ∧
              (select_pdfs sizeOf maxCount maxTotal pdfs).1.length < maxCount ∧
              maxTotal < (select_pdfs sizeOf maxCount maxTotal pdfs).2.1 + sz))) := by
  obtain ⟨adm, h1, h2, h3, h4⟩ := select_pdfs_loop_adm sizeOf maxCount maxTotal pdfs [] 0
  have hdef : select_pdfs sizeOf maxCount maxTotal pdfs
      = select_pdfs_loop sizeOf maxCount maxTotal pdfs [] 0 := rfl
  have hsub : (select_pdfs sizeOf maxCount maxTotal pdfs).1.Sublist pdfs := by
    rw [hdef, h1]
    simpa using h2
  have hcount := select_pdfs_loop_count sizeOf maxCount maxTotal pdfs [] 0 (by simp)
  refine ⟨hsub, by rw [hdef]; exact hcount,
    by rw [hdef]; exact select_pdfs_loop_size sizeOf maxCount maxTotal pdfs [] 0 hpos,
    ?_, ?_, ?_, ?_⟩
  · intro p hp
    rw [hdef, h1] at hp
    exact h3 p (by simpa using hp)
  · rw [hdef, h1, h4]
    simp
  · intro h
    rw [hdef] at h ⊢
    simpa using select_pdfs_loop_none sizeOf maxCount maxTotal pdfs [] 0 h
  · intro n h
    rw [hdef] at h
    obtain ⟨pre, b, post, hsplit, hrun, sz, hsz, hcase⟩ :=
      select_pdfs_loop_halt sizeOf maxCount maxTotal pdfs [] 0 n h
    refine ⟨pre, b, post, hsplit, hrun, sz, hsz, ?_⟩
    rcases hcase with ⟨hn, hlen⟩ | hcase
    · exact Or.inl ⟨hn, by rw [hdef]; exact le_antisymm hcount hlen⟩
    · exact Or.inr (by rw [hdef]; exact hcase)

/-- Witness for C2: the budget theorem applied to a concrete catalog in
which the third admissible file hits the count limit. -/
theorem send_folder_contents_budget_app :
    (0 : ℚ) ≤ 10 ∧
    (select_pdfs (fun p => if p = "b.pdf" then none else some 3) 2 10
        ["a.pdf", "b.pdf", "c.pdf", "d.pdf"]).1.Sublist ["a.pdf", "b.pdf", "c.pdf", "d.pdf"] ∧
    (select_pdfs (fun p => if p = "b.pdf" then none else some 3) 2 10
        ["a.pdf", "b.pdf", "c.pdf", "d.pdf"]).1.length ≤ 2 := by
  have h := send_folder_contents_budget (fun p => if p = "b.pdf" then none else some 3) 2 10
    ["a.pdf", "b.pdf", "c.pdf", "d.pdf"] (by norm_num)
  exact ⟨by norm_num, h.1, h.2.1⟩

/-! ## C3: the rate limiter -/

/-- **C3.** The rate limiter first prunes the per-user timestamp log to
the entries within the trailing 60 seconds, then allows the request iff
the pruned log holds fewer than `maxPerMinute` entries, appending `now`
only when allowed; denial leaves the pruned log in place, both in the
extracted contract and inside `gemini_query` itself.  Concretely, with
`maxPerMinute = 5`, five requests at seconds 0,2,4,6,8 all succeed, a
sixth at second 9 is denied, and a request at second 61 (past the
60-second window of the first) succeeds again. -/
theorem rate_limiter_spec (log : List ℚ) (now : ℚ) (maxPerMinute : Nat)
    (maxAiMB : ℚ) (sizeMB : String → ℚ) (existsF : String → Bool)
    (ai : AiOutcome) (st : UserData) :
    (∀ t, t ∈ prune_requests log now ↔ t ∈ log ∧ now - t < 60) ∧
    (rate_limiter_allow log now maxPerMinute).1
      = decide ((prune_requests log now).length < maxPerMinute) ∧
    ((rate_limiter_allow log now maxPerMinute).1 = true →
      (rate_limiter_allow log now maxPerMinute).2 = prune_requests log now ++ [now]) ∧
    ((rate_limiter_allow log now maxPerMinute).1 = false →
      (rate_limiter_allow log now maxPerMinute).2 = prune_requests log now) ∧
    (maxPerMinute ≤ (prune_requests st.geminiRequests now).length →
      (gemini_query true maxPerMinute maxAiMB sizeMB existsF ai st now).st.geminiRequests
        = prune_requests st.geminiRequests now) ∧
    (run_allow 5 [0, 2, 4, 6, 8]).1 = [true, true, true, true, true] ∧
    (run_allow 5 [0, 2, 4, 6, 8, 9]).1 = [true, true, true, true, true, false] ∧
    (run_allow 5 [0, 2, 4, 6, 8, 9, 61]).1 = [true, true, true, true, true, false, true] := by
  refine ⟨?_, ?_, ?_, ?_, ?_,
    by norm_num [run_allow, rate_limiter_allow, prune_requests, List.foldl, List.filter],
    by norm_num [run_allow, rate_limiter_allow, prune_requests, List.foldl, List.filter],
    by norm_num [run_allow, rate_limiter_allow, prune_requests, List.foldl, List.filter]⟩
  · intro t
    simp [prune_requests]
  · by_cases h : maxPerMinute ≤ (prune_requests log now).length
    · simp only [rate_limiter_allow, if_pos h]
      simp [Nat.not_lt.mpr h]
    · simp only [rate_limiter_allow, if_neg h]
      simp [Nat.lt_of_not_le h]
  · intro h
    by_cases hh : maxPerMinute ≤ (prune_requests log now).length
    · simp only [rate_limiter_allow, if_pos hh] at h
      exact absurd h (by simp)
    · simp only [rate_limiter_allow, if_neg hh]
  · intro h
    by_cases hh : maxPerMinute ≤ (prune_requests log now).length
    · simp only [rate_limiter_allow, if_pos hh]
    · simp only [rate_limiter_allow, if_neg hh] at h
      exact absurd h (by simp)
  · intro h
    simp [gemini_query, h]

/-- Witness for C3: the contract applied at a concrete log, time and
limit, exercising the allow and deny branches and the `gemini_query`
denial link. -/
theorem rate_limiter_spec_app :
    (rate_limiter_allow [0, 30] 59 2).1 = false ∧
    (rate_limiter_allow [0, 30] 59 2).2 = prune_requests [0, 30] 59 ∧
    (rate_limiter_allow [0, 30] 61 2).1 = true ∧
    (rate_limiter_allow [0, 30] 61 2).2 = prune_requests [0, 30] 61 ++ [61] ∧
    (gemini_query true 2
        15 (fun _ => 1) (fun _ => true) (AiOutcome.ok "a")
        ⟨Mode.search, none, none, none, none, [0, 30], true⟩ 59).st.geminiRequests
      = prune_requests [0, 30] 59 := by
  have h1 := rate_limiter_spec [0, 30] 59 2 15 (fun _ => 1) (fun _ => true) (AiOutcome.ok "a")
    ⟨Mode.search, none, none, none, none, [0, 30], true⟩
  have h2 := rate_limiter_spec [0, 30] 61 2 15 (fun _ => 1) (fun _ => true) (AiOutcome.ok "a")
    ⟨Mode.search, none, none, none, none, [0, 30], true⟩
  have e1 : (rate_limiter_allow [0, 30] 59 2).1 = false := by
    rw [h1.2.1]
    norm_num [prune_requests, List.filter]
  have e2 : (rate_limiter_allow [0, 30] 61 2).1 = true := by
    rw [h2.2.1]
    norm_num [prune_requests, List.filter]
  refine ⟨e1, h1.2.2.2.1 e1, e2, h2.2.2.1 e2, ?_⟩
  exact h1.2.2.2.2.1 (by norm_num [prune_requests, List.filter])

/-! ## C4: no usable AI answer (code bug) -/

/-- **C4 (divergence witness).** In AI-context mode with an active
document, when the AI call completes but returns no usable text,
`gemini_query` emits the "no answer, mode reset" reply yet leaves the
session in AI mode with the active document still set: the code performs
no transition although its own reply text (and the spec) say the mode is
reset to search and the document cleared. -/
theorem gemini_no_answer_keeps_ai_mode :
    (gemini_query true 5 15 (fun _ => 1) (fun _ => true) (AiOutcome.ok "")
        ⟨Mode.ai, some "doc.pdf", none, none, none, [], true⟩ 0).event
      = GeminiEvent.noAnswerDoc ∧
    (gemini_query true 5 15 (fun _ => 1) (fun _ => true) (AiOutcome.ok "")
        ⟨Mode.ai, some "doc.pdf", none, none, none, [], true⟩ 0).st.mode
      = Mode.ai ∧
    (gemini_query true 5 15 (fun _ => 1) (fun _ => true) (AiOutcome.ok "")
        ⟨Mode.ai, some "doc.pdf", none, none, none, [], true⟩ 0).st.pdfContextPath
      = some "doc.pdf" := by
  norm_num [gemini_query, prune_requests, hasDocContext, List.filter]
  decide

/-! ## C7: policy rejections are surfaced and force a mode reset -/

/-- **C7.** Both policy rejections in `gemini_query` — the per-minute
rate limit and the AI size budget — surface an explicit notice event,
force the session back to search mode with the document context cleared,
and return before the external AI capability is invoked (so the rate
limit is evaluated before any AI call). -/
theorem policy_rejection_spec (maxReq : Nat) (maxAiMB : ℚ) (sizeMB : String → ℚ)
    (existsF : String → Bool) (ai : AiOutcome) (st : UserData) (now : ℚ) (p : String) :
    (maxReq ≤ (prune_requests st.geminiRequests now).length →
      (gemini_query true maxReq maxAiMB sizeMB existsF ai st now).event
          = GeminiEvent.rateLimitNotice ∧
      (gemini_query true maxReq maxAiMB sizeMB existsF ai st now).st.mode = Mode.search ∧
      (gemini_query true maxReq maxAiMB sizeMB existsF ai st now).st.pdfContextPath = none ∧
      (gemini_query true maxReq maxAiMB sizeMB existsF ai st now).aiCalled = false) ∧
    ((prune_requests st.geminiRequests now).length < maxReq →
      st.pdfContextPath = some p → p ≠ "" → existsF p = true → maxAiMB < sizeMB p →
      (gemini_query true maxReq maxAiMB sizeMB existsF ai st now).event
          = GeminiEvent.sizeLimitNotice ∧
      (gemini_query true maxReq maxAiMB sizeMB existsF ai st now).st.mode = Mode.search ∧
      (gemini_query true maxReq maxAiMB sizeMB existsF ai st now).st.pdfContextPath = none ∧
      (gemini_query true maxReq maxAiMB sizeMB existsF ai st now).aiCalled = false) := by
  constructor
  · intro h
    simp [gemini_query, h]
  · intro h1 hctx hne hex hsz
    simp [gemini_query, Nat.not_le.mpr h1, hctx, hasDocContext, hne, hex, hsz]

/-- Witness for C7: a rate-limited request and a size-rejected request
at concrete states. -/
theorem policy_rejection_spec_app :
    (gemini_query true 1 15 (fun _ => 1) (fun _ => true) (AiOutcome.ok "a")
        ⟨Mode.ai, some "doc.pdf", none, none, none, [30], true⟩ 40).event
      = GeminiEvent.rateLimitNotice ∧
    (gemini_query true 5 15 (fun _ => 20) (fun _ => true) (AiOutcome.ok "a")
        ⟨Mode.ai, some "doc.pdf", none, none, none, [], true⟩ 0).event
      = GeminiEvent.sizeLimitNotice := by
  have h1 := (policy_rejection_spec 1 15 (fun _ => 1) (fun _ => true) (AiOutcome.ok "a")
    ⟨Mode.ai, some "doc.pdf", none, none, none, [30], true⟩ 40 "doc.pdf").1
  have h2 := (policy_rejection_spec 5 15 (fun _ => 20) (fun _ => true) (AiOutcome.ok "a")
    ⟨Mode.ai, some "doc.pdf", none, none, none, [], true⟩ 0 "doc.pdf").2
  constructor
  · exact (h1 (by norm_num [prune_requests, List.filter])).1
  · exact (h2 (by norm_num [prune_requests, List.filter]) rfl (by decide) rfl
      (by norm_num)).1

/-! ## C9: a size-rejected request does not consume rate budget -/

/-- **C9.** When the AI request is rejected because the active document
exceeds the AI size budget, the timestamp appended for the request is
popped again: the final rate-limit log equals the pruned pre-request
log, so the rejected request never counts against the per-minute
budget. -/
theorem size_reject_refund_spec (maxReq : Nat) (maxAiMB : ℚ) (sizeMB : String → ℚ)
    (existsF : String → Bool) (ai : AiOutcome) (st : UserData) (now : ℚ) (p : String)
    (h1 : (prune_requests st.geminiRequests now).length < maxReq)
    (hctx : st.pdfContextPath = some p) (hne : p ≠ "") (hex : existsF p = true)
    (hsz : maxAiMB < sizeMB p) :
    (gemini_query true maxReq maxAiMB sizeMB existsF ai st now).st.geminiRequests
      = prune_requests st.geminiRequests now := by
  simp [gemini_query, Nat.not_le.mpr h1, hctx, hasDocContext, hne, hex, hsz]

/-- Witness for C9: the refund at a concrete state. -/
theorem size_reject_refund_spec_app :
    (gemini_query true 5 15 (fun _ => 20) (fun _ => true) (AiOutcome.ok "a")
        ⟨Mode.ai, some "doc.pdf", none, none, none, [1], true⟩ 2).st.geminiRequests
      = prune_requests [1] 2 := by
  exact size_reject_refund_spec 5 15 (fun _ => 20) (fun _ => true) (AiOutcome.ok "a")
    ⟨Mode.ai, some "doc.pdf", none, none, none, [1], true⟩ 2 "doc.pdf"
    (by norm_num [prune_requests, List.filter]) rfl (by decide) rfl (by norm_num)

/-! ## C8: AI document selection and cancel -/

/-- **C8.** Selecting a document for AI from search mode stores the
document path and enters AI mode while changing nothing else (in
particular the broadcast opt-in); cancel returns any session to search
mode with the document context and pagination state cleared and the
broadcast opt-in untouched. -/
theorem select_cancel_spec (st : UserData) (pdfMap : Nat → Option String)
    (existsF : String → Bool) (pdfId : Nat) (p : String) :
    (st.mode = Mode.search → pdfMap pdfId = some p → p ≠ "" → existsF p = true →
      ask_ai_select st pdfMap existsF pdfId
        = ({ st with pdfContextPath := some p, mode := Mode.ai }, true) ∧
      (ask_ai_select st pdfMap existsF pdfId).1.mode = Mode.ai ∧
      (ask_ai_select st pdfMap existsF pdfId).1.pdfContextPath = some p ∧
      (ask_ai_select st pdfMap existsF pdfId).1.broadcastOptIn = st.broadcastOptIn) ∧
    (cancel_command st
      = { st with mode := Mode.search, pdfContextPath := none,
                  currentMatches := none, currentMatchIndex := none }) ∧
    (cancel_command st).mode = Mode.search ∧
    (cancel_command st).pdfContextPath = none ∧
    (cancel_command st).broadcastOptIn = st.broadcastOptIn := by
  refine ⟨?_, rfl, rfl, rfl, rfl⟩
  intro _ hmap hne hex
  simp [ask_ai_select, hmap, hne, hex]

/-- Witness for C8: selection and cancel at a concrete session whose
broadcast opt-in is off, showing it stays off. -/
theorem select_cancel_spec_app :
    ask_ai_select ⟨Mode.search, none, none, none, none, [], false⟩
        (fun i => if i = 0 then some "x.pdf" else none) (fun _ => true) 0
      = (⟨Mode.ai, some "x.pdf", none, none, none, [], false⟩, true) ∧
    (cancel_command ⟨Mode.ai, some "x.pdf", some ["a"], some 0, some "q", [], false⟩).broadcastOptIn
      = false := by
  have h := select_cancel_spec ⟨Mode.search, none, none, none, none, [], false⟩
    (fun i => if i = 0 then some "x.pdf" else none) (fun _ => true) 0 "x.pdf"
  exact ⟨(h.1 rfl (by decide) (by decide) rfl).1, h.2.2.2.2⟩

/-! ## C6: the disambiguation pager -/

/-- **C6 (counterexample).** An out-of-range index on a non-edit call is
rejected with *no* error event at all (the alert is only raised for edit
callbacks), refuting the claim that every out-of-range request is
rejected with an invalid-index error; the state is still unchanged. -/
theorem pager_invalid_index_cex :
    send_person_card ⟨Mode.search, none, none, none, none, [], true⟩ ["a", "b"] 5 "q" false true
      = (⟨Mode.search, none, none, none, none, [], true⟩, none) := by
  decide

/-- **C6 (amended).** For `0 ≤ index < len(matchList)` the rendered card
offers a previous affordance iff `index > 0` and a next affordance iff
`index < len - 1`, the navigation targets are exactly `index ∓ 1` and
stay inside the range (no wrap-around), and the pagination state is
stored; for an index outside the range no state is written and no card
is rendered — an invalid-index alert is raised iff the request is an
edit arriving through a callback query, and the call is silently dropped
otherwise; the index is never clamped. -/
theorem pager_spec (st : UserData) (matchList : List String) (index : Int)
    (queryText : String) (isEdit hasCallback : Bool) :
    (0 ≤ index → index < (matchList.length : Int) →
      ((generate_person_card_markup matchList index).prevTarget ≠ none ↔ 0 < index) ∧
      ((generate_person_card_markup matchList index).nextTarget ≠ none ↔
        index < (matchList.length : Int) - 1) ∧
      (∀ j, (generate_person_card_markup matchList index).prevTarget = some j →
        j = index - 1 ∧ 0 ≤ j) ∧
      (∀ j, (generate_person_card_markup matchList index).nextTarget = some j →
        j = index + 1 ∧ j < (matchList.length : Int)) ∧
      (send_person_card st matchList index queryText isEdit hasCallback).1.currentMatches
        = some matchList ∧
      (send_person_card st matchList index queryText isEdit hasCallback).1.currentMatchIndex
        = some index ∧
      (send_person_card st matchList index queryText isEdit hasCallback).2
        = some (CardEvent.rendered (generate_person_card_markup matchList index))) ∧
    (¬(0 ≤ index ∧ index < (matchList.length : Int)) →
      (send_person_card st matchList index queryText isEdit hasCallback).1 = st ∧
      ((send_person_card st matchList index queryText isEdit hasCallback).2
        = if isEdit && hasCallback then some CardEvent.invalidIndexAlert else none) ∧
      (∀ m, (send_person_card st matchList index queryText isEdit hasCallback).2
        ≠ some (CardEvent.rendered m))) := by
  constructor
  · intro h0 hlt
    refine ⟨?_, ?_, ?_, ?_, ?_, ?_, ?_⟩
    · by_cases h : 0 < index <;> simp [generate_person_card_markup, h]
    · by_cases h : index < (matchList.length : Int) - 1 <;>
        simp [generate_person_card_markup, h]
    · intro j hj
      by_cases h : 0 < index
      · simp [generate_person_card_markup, h] at hj
        omega
      · simp [generate_person_card_markup, h] at hj
    · intro j hj
      by_cases h : index < (matchList.length : Int) - 1
      · simp [generate_person_card_markup, h] at hj
        omega
      · simp [generate_person_card_markup, h] at hj
    · simp [send_person_card, h0, hlt]
    · simp [send_person_card, h0, hlt]
    · simp [send_person_card, h0, hlt]
  · intro h
    have hcond : ¬(decide (0 ≤ index) && decide (index < (matchList.length : Int))) = true := by
      simpa [Decidable.not_and_iff_or_not] using h
    refine ⟨?_, ?_, ?_⟩
    · simp [send_person_card, hcond]
    · simp [send_person_card, hcond]
    · intro m
      rcases hb : (isEdit && hasCallback) with _ | _ <;>
        simp [send_person_card, hcond, hb]

/-- Witness for C6: the amended pager contract applied at a valid middle
index and at an out-of-range edit-callback request. -/
theorem pager_spec_app :
    ((generate_person_card_markup ["a", "b", "c"] 1).prevTarget ≠ none ↔ (0:Int) < 1) ∧
    ((send_person_card ⟨Mode.search, none, none, none, none, [], true⟩ ["a", "b", "c"] 7 "q"
        true true).2 = if true && true then some CardEvent.invalidIndexAlert else none) := by
  constructor
  · exact ((pager_spec ⟨Mode.search, none, none, none, none, [], true⟩ ["a", "b", "c"] 1 "q"
      true true).1 (by norm_num) (by norm_num)).1
  · exact ((pager_spec ⟨Mode.search, none, none, none, none, [], true⟩ ["a", "b", "c"] 7 "q"
      true true).2 (by norm_num)).2.1

/-! ## C5: summary selection -/

/-- Absorbing a sure second argument of `Option.or`. -/
theorem option_or_some_absorb {α : Type} (a : Option α) (b : α) (c : Option α) :
    Option.or (Option.or a (some b)) c = Option.or a (some b) := by
  cases a <;> rfl

/-- `getLast?` of a cons, expressed with `Option.or`. -/
theorem getLast?_cons_or {α : Type} (a : α) :
    ∀ (l : List α), (a :: l).getLast? = Option.or l.getLast? (some a)
  | [] => rfl
  | b :: bs => by
    rw [List.getLast?_cons_cons, getLast?_cons_or b bs]
    exact (option_or_some_absorb bs.getLast? b (some a)).symm

/-- The first component of the gathering pass does not depend on the
PDF accumulator. -/
theorem sfc_collect_aux_fst_indep (folder : String) (existsF : String → Bool) :
    ∀ (paths : List String) (txt : Option String) (pdfs pdfs' : List String),
      (sfc_collect_aux folder existsF paths txt pdfs).1
        = (sfc_collect_aux folder existsF paths txt pdfs').1
  | [], _, _, _ => rfl
  | p :: rest, txt, pdfs, pdfs' => by
    by_cases hg : strStarts (folder ++ sepStr) p
    · by_cases ht : extTxt p
      · by_cases hn : namesMatch folder p
        · simpa [sfc_collect_aux, hg, ht, hn] using
            sfc_collect_aux_fst_indep folder existsF rest (some p) pdfs pdfs'
        · simpa [sfc_collect_aux, hg, ht, hn] using
            sfc_collect_aux_fst_indep folder existsF rest txt pdfs pdfs'
      · by_cases hp : extPdf p
        · by_cases he : existsF p
          · simpa [sfc_collect_aux, hg, ht, hp, he] using
              sfc_collect_aux_fst_indep folder existsF rest txt (pdfs ++ [p]) (pdfs' ++ [p])
          · simpa [sfc_collect_aux, hg, ht, hp, he] using
              sfc_collect_aux_fst_indep folder existsF rest txt pdfs pdfs'
        · simpa [sfc_collect_aux, hg, ht, hp] using
            sfc_collect_aux_fst_indep folder existsF rest txt pdfs pdfs'
    · simpa [sfc_collect_aux, hg] using
        sfc_collect_aux_fst_indep folder existsF rest txt pdfs pdfs'

/-- The summary slot of the gathering pass holds the *last* qualifying
entry in catalog order (falling back to the incoming value). -/
theorem sfc_collect_aux_txt (folder : String) (existsF : String → Bool) :
    ∀ (paths : List String) (txt : Option String) (pdfs : List String),
      (sfc_collect_aux folder existsF paths txt pdfs).1
        = Option.or (paths.filter (summaryCandidate folder)).getLast? txt
  | [], txt, pdfs => by cases txt <;> rfl
  | p :: rest, txt, pdfs => by
    by_cases hg : strStarts (folder ++ sepStr) p
    · by_cases ht : extTxt p
      · by_cases hn : namesMatch folder p
        · have hcand : summaryCandidate folder p = true := by
            simp [summaryCandidate, hg, ht, hn]
          have hstep : (sfc_collect_aux folder existsF (p :: rest) txt pdfs).1
              = (sfc_collect_aux folder existsF rest (some p) pdfs).1 := by
            simp [sfc_collect_aux, hg, ht, hn]
          rw [hstep, sfc_collect_aux_txt folder existsF rest (some p) pdfs,
            List.filter_cons, if_pos hcand, getLast?_cons_or,
            option_or_some_absorb]
        · have hcand : summaryCandidate folder p = false := by
            simp [summaryCandidate, hn]
          have hstep : (sfc_collect_aux folder existsF (p :: rest) txt pdfs).1
              = (sfc_collect_aux folder existsF rest txt pdfs).1 := by
            simp [sfc_collect_aux, hg, ht, hn]
          rw [hstep, sfc_collect_aux_txt folder existsF rest txt pdfs,
            List.filter_cons, if_neg (by simp [hcand])]
      · have hcand : summaryCandidate folder p = false := by
          simp [summaryCandidate, ht]
        have hstep : (sfc_collect_aux folder existsF (p :: rest) txt pdfs).1
            = (sfc_collect_aux folder existsF rest txt pdfs).1 := by
          by_cases hp : extPdf p
          · by_cases he : existsF p
            · rw [show sfc_collect_aux folder existsF (p :: rest) txt pdfs
                    = sfc_collect_aux folder existsF rest txt (pdfs ++ [p]) by
                  simp [sfc_collect_aux, hg, ht, hp, he]]
              exact sfc_collect_aux_fst_indep folder existsF rest txt (pdfs ++ [p]) pdfs
            · simp [sfc_collect_aux, hg, ht, hp, he]
          · simp [sfc_collect_aux, hg, ht, hp]
        rw [hstep, sfc_collect_aux_txt folder existsF rest txt pdfs,
          List.filter_cons, if_neg (by simp [hcand])]
    · have hcand : summaryCandidate folder p = false := by
        simp [summaryCandidate, hg]
      have hstep : (sfc_collect_aux folder existsF (p :: rest) txt pdfs).1
          = (sfc_collect_aux folder existsF rest txt pdfs).1 := by
        simp [sfc_collect_aux, hg]
      rw [hstep, sfc_collect_aux_txt folder existsF rest txt pdfs,
        List.filter_cons, if_neg (by simp [hcand])]

/-- The PDF list of the gathering pass is the filter by
`pdfCandidate`, in catalog order. -/
theorem sfc_collect_aux_pdf (folder : String) (existsF : String → Bool) :
    ∀ (paths : List String) (txt : Option String) (pdfs : List String),
      (sfc_collect_aux folder existsF paths txt pdfs).2
        = pdfs ++ paths.filter (pdfCandidate folder existsF)
  | [], txt, pdfs => by simp [sfc_collect_aux]
  | p :: rest, txt, pdfs => by
    by_cases hg : strStarts (folder ++ sepStr) p
    · by_cases ht : extTxt p
      · have hcand : pdfCandidate folder existsF p = false := by
          simp [pdfCandidate, ht]
        by_cases hn : namesMatch folder p <;>
          simp [sfc_collect_aux, hg, ht, hn, List.filter_cons, hcand,
            sfc_collect_aux_pdf folder existsF rest _ pdfs]
      · by_cases hp : extPdf p
        · by_cases he : existsF p
          · have hcand : pdfCandidate folder existsF p = true := by
              simp [pdfCandidate, hg, ht, hp, he]
            simp [sfc_collect_aux, hg, ht, hp, he, List.filter_cons, hcand,
              sfc_collect_aux_pdf folder existsF rest txt (pdfs ++ [p])]
          · have hcand : pdfCandidate folder existsF p = false := by
              simp [pdfCandidate, he]
            simp [sfc_collect_aux, hg, ht, hp, he, List.filter_cons, hcand,
              sfc_collect_aux_pdf folder existsF rest txt pdfs]
        · have hcand : pdfCandidate folder existsF p = false := by
            simp [pdfCandidate, ht, hp]
          simp [sfc_collect_aux, hg, ht, hp, List.filter_cons, hcand,
            sfc_collect_aux_pdf folder existsF rest txt pdfs]
    · have hcand : pdfCandidate folder existsF p = false := by
        simp [pdfCandidate, hg]
      simp [sfc_collect_aux, hg, List.filter_cons, hcand,
        sfc_collect_aux_pdf folder existsF rest txt pdfs]

/-- The selection loop of `get_summary_from_folder` returns the first
qualifying entry. -/
theorem get_summary_file_eq_head (folder : String) :
    ∀ (paths : List String),
      get_summary_file paths folder = (paths.filter (summaryCandidate folder)).head?
  | [] => rfl
  | p :: rest => by
    by_cases hcand : summaryCandidate folder p <;>
      simp [get_summary_file, hcand, List.filter_cons,
        get_summary_file_eq_head folder rest]

set_option maxRecDepth 8000 in
/-- **C5 (counterexample).** With two qualifying summary files under the
folder, `send_folder_contents` surfaces the *last* one while
`get_summary_from_folder` surfaces the first — so "first match under
catalog order wins" fails for the full-form variant; and a short-form
read that returned exactly 500 characters gets *no* ellipsis marker when
stripping shortens it (here the 500th character is a space). -/
theorem summary_selection_cex :
    (sfc_collect ["Dok/Ivanov/Ivanov.txt", "Dok/Ivanov/Ivanov_2.txt"] "Dok/Ivanov"
        (fun _ => true)).1 = some "Dok/Ivanov/Ivanov_2.txt" ∧
    get_summary_file ["Dok/Ivanov/Ivanov.txt", "Dok/Ivanov/Ivanov_2.txt"] "Dok/Ivanov"
      = some "Dok/Ivanov/Ivanov.txt" ∧
    strTake (String.mk (List.replicate 499 'a' ++ [' '])) 500
      = String.mk (List.replicate 499 'a' ++ [' ']) ∧
    (String.mk (List.replicate 499 'a' ++ [' '])).length = 500 ∧
    read_summary_short (String.mk (List.replicate 499 'a' ++ [' ']))
      = String.mk (List.replicate 499 'a') := by
  refine ⟨by decide, by decide, by decide, by decide, by decide⟩

/-- **C5 (amended).** Summary resolution surfaces at most one entry,
qualifying exactly when it lies under the folder with a summary
extension and an agreeing cleaned name: the short-form variant
(`get_summary_from_folder`) surfaces the *first* qualifying entry in
catalog order while the full-form variant (`send_folder_contents`)
surfaces the *last*; the short-form read takes the first 500 characters,
strips surrounding whitespace and appends the ellipsis marker iff the
stripped text still has exactly 500 characters; the full-form read takes
the entire (stripped) content. -/
theorem summary_selection_spec (paths : List String) (folder : String)
    (existsF : String → Bool) (content : String) :
    get_summary_file paths folder = (paths.filter (summaryCandidate folder)).head? ∧
    (sfc_collect paths folder existsF).1
      = (paths.filter (summaryCandidate folder)).getLast? ∧
    (∀ p, get_summary_file paths folder = some p → summaryCandidate folder p = true) ∧
    ((pyStripS (strTake content 500)).length = 500 →
      read_summary_short content = pyStripS (strTake content 500) ++ "...") ∧
    ((pyStripS (strTake content 500)).length ≠ 500 →
      read_summary_short content = pyStripS (strTake content 500)) ∧
    read_summary_full content = pyStripS content := by
  refine ⟨get_summary_file_eq_head folder paths, ?_, ?_, ?_, ?_, rfl⟩
  · rw [show sfc_collect paths folder existsF
        = sfc_collect_aux folder existsF paths none [] from rfl,
      sfc_collect_aux_txt folder existsF paths none []]
    cases (paths.filter (summaryCandidate folder)).getLast? <;> rfl
  · intro p hp
    rw [get_summary_file_eq_head folder paths] at hp
    have hmem : p ∈ paths.filter (summaryCandidate folder) := by
      cases hfilter : paths.filter (summaryCandidate folder) with
      | nil => rw [hfilter] at hp; simp at hp
      | cons q qs =>
        rw [hfilter] at hp
        simp only [List.head?_cons, Option.some_inj] at hp
        simp [hfilter, hp]
    exact (List.mem_filter.mp hmem).2
  · intro h
    simp [read_summary_short, h]
  · intro h
    simp [read_summary_short, h]

/-- Witness for C5: the amended selection and read behaviour at a
concrete catalog and at concrete short/long contents. -/
theorem summary_selection_spec_app :
    get_summary_file ["Dok/Ivanov/Ivanov.txt"] "Dok/Ivanov"
      = (["Dok/Ivanov/Ivanov.txt"].filter (summaryCandidate "Dok/Ivanov")).head? ∧
    read_summary_short "hello" = pyStripS (strTake "hello" 500) := by
  have h1 := summary_selection_spec ["Dok/Ivanov/Ivanov.txt"] "Dok/Ivanov"
    (fun _ => true) "hello"
  exact ⟨h1.1, h1.2.2.2.2.1 (by decide)⟩

/-! ## C10: folder attribution -/

/-- Two initial segments of a common list are comparable: the shorter is
an initial segment of the longer. -/
theorem initial_of_common : ∀ (x y z : List Char), (∃ s, x ++ s = z) → (∃ t, y ++ t = z) →
    x.length ≤ y.length → ∃ u, x ++ u = y
  | [], y, _, _, _, _ => ⟨y, rfl⟩
  | a :: x, y, z, ⟨s, hs⟩, ⟨t, ht⟩, hlen => by
    match y, z with
    | [], _ => simp at hlen
    | b :: y, [] => simp at hs
    | b :: y, c :: z =>
      injection hs with h1 h2
      injection ht with h3 h4
      obtain ⟨u, hu⟩ := initial_of_common x y z ⟨s, h2⟩ ⟨t, h4⟩ (by simpa using hlen)
      exact ⟨u, by simp [h1, h3, hu]⟩

/-- When `fA` is a proper prefix of `fB` that does *not* continue with
the path separator, no path under `fB` is also under `fA`. -/
theorem no_cross_attribution (fA fB f : String) (hne : fA ≠ fB)
    (hAB : strStarts fA fB = true) (hnest : strStarts (fA ++ sepStr) fB = false)
    (hBf : strStarts (fB ++ sepStr) f = true) :
    strStarts (fA ++ sepStr) f = false := by
  by_contra hcontra
  have hAf : strStarts (fA ++ sepStr) f = true := by
    cases h : strStarts (fA ++ sepStr) f
    · exact absurd h hcontra
    · rfl
  obtain ⟨u, hu⟩ := (isPrefixOf_iff fA.data fB.data).1 hAB
  have hulen : fA.data.length < fB.data.length := by
    rcases u with _ | ⟨c, u⟩
    · have hdata : fA.data = fB.data := by simpa using hu
      exact absurd (congrArg String.mk hdata) hne
    · rw [hu.symm]
      simp
  have hxz : ∃ s, (fA.data ++ sepStr.data) ++ s = f.data := by
    obtain ⟨s, hs⟩ := (isPrefixOf_iff (fA ++ sepStr).data f.data).1 hAf
    exact ⟨s, by rw [← String.data_append fA sepStr]; exact hs⟩
  have hyz : ∃ t, (fB.data ++ sepStr.data) ++ t = f.data := by
    obtain ⟨t, ht⟩ := (isPrefixOf_iff (fB ++ sepStr).data f.data).1 hBf
    exact ⟨t, by rw [← String.data_append fB sepStr]; exact ht⟩
  obtain ⟨v, hv⟩ := initial_of_common (fA.data ++ sepStr.data) (fB.data ++ sepStr.data)
    f.data hxz hyz (by rw [List.length_append, List.length_append]; omega)
  have hsep1 : sepStr.data.length = 1 := rfl
  have hAB2 : ∃ w, (fA.data ++ sepStr.data) ++ w = fB.data := by
    refine initial_of_common (fA.data ++ sepStr.data) fB.data (fB.data ++ sepStr.data)
      ⟨v, hv⟩ ⟨sepStr.data, rfl⟩ ?_
    rw [List.length_append, hsep1]
    omega
  have : strStarts (fA ++ sepStr) fB = true := by
    rw [strStarts, String.data_append]
    exact (isPrefixOf_iff _ _).2 hAB2
  rw [this] at hnest
  simp at hnest

/-- **C10 (counterexample).** The "no cross-attribution" consequence
fails when the longer folder is *nested* below the shorter one: with the
catalog `["Dok/Iv/y.pdf", "Dok/Iv/anov/x.pdf"]` both `Dok/Iv` and
`Dok/Iv/anov` are person folders, the first is a proper prefix of the
second, yet document enumeration for `Dok/Iv` includes the file
belonging to `Dok/Iv/anov`. -/
theorem folder_attribution_cex :
    "Dok/Iv" ∈ person_folders_of ["Dok/Iv/y.pdf", "Dok/Iv/anov/x.pdf"] "Dok" ∧
    "Dok/Iv/anov" ∈ person_folders_of ["Dok/Iv/y.pdf", "Dok/Iv/anov/x.pdf"] "Dok" ∧
    "Dok/Iv" ≠ "Dok/Iv/anov" ∧
    strStarts "Dok/Iv" "Dok/Iv/anov" = true ∧
    strStarts ("Dok/Iv/anov" ++ sepStr) "Dok/Iv/anov/x.pdf" = true ∧
    "Dok/Iv/anov/x.pdf"
      ∈ (sfc_collect ["Dok/Iv/y.pdf", "Dok/Iv/anov/x.pdf"] "Dok/Iv" (fun _ => true)).2 := by
  refine ⟨by decide, by decide, by decide, by decide, by decide, by decide⟩

/-- **C10 (amended).** A catalog file is attributed to a folder (by the
document enumeration and the summary resolution of
`send_folder_contents` / `get_summary_from_folder`) only when the
folder's path followed by the separator prefixes the file's path;
consequently, for two distinct person folders where one's path is a
proper prefix of the other's *and the longer does not continue with the
path separator at the split point* (i.e. is not nested below the
shorter), the shorter folder's enumeration and summary never include a
file belonging to the longer folder. -/
theorem folder_attribution_spec (paths : List String) (fA fB f : String)
    (existsF : String → Bool) :
    (∀ p ∈ (sfc_collect paths fA existsF).2, strStarts (fA ++ sepStr) p = true) ∧
    (∀ p, get_summary_file paths fA = some p → strStarts (fA ++ sepStr) p = true) ∧
    (fA ≠ fB → strStarts fA fB = true → strStarts (fA ++ sepStr) fB = false →
      strStarts (fB ++ sepStr) f = true →
      strStarts (fA ++ sepStr) f = false ∧
      f ∉ (sfc_collect paths fA existsF).2 ∧
      get_summary_file paths fA ≠ some f) := by
  have hpdf : ∀ p ∈ (sfc_collect paths fA existsF).2, strStarts (fA ++ sepStr) p = true := by
    intro p hp
    rw [show sfc_collect paths fA existsF = sfc_collect_aux fA existsF paths none [] from rfl,
      sfc_collect_aux_pdf fA existsF paths none []] at hp
    simp only [List.nil_append] at hp
    have := (List.mem_filter.mp hp).2
    simp only [pdfCandidate, Bool.and_eq_true] at this
    exact this.1.1.1
  have hsum : ∀ p, get_summary_file paths fA = some p → strStarts (fA ++ sepStr) p = true := by
    intro p hp
    rw [get_summary_file_eq_head fA paths] at hp
    have hmem : p ∈ paths.filter (summaryCandidate fA) := by
      cases hfilter : paths.filter (summaryCandidate fA) with
      | nil => rw [hfilter] at hp; simp at hp
      | cons q qs =>
        rw [hfilter] at hp
        simp only [List.head?_cons, Option.some_inj] at hp
        simp [hfilter, hp]
    have := (List.mem_filter.mp hmem).2
    simp only [summaryCandidate, Bool.and_eq_true] at this
    exact this.1.1
  refine ⟨hpdf, hsum, ?_⟩
  intro hne hAB hnest hBf
  have hAf := no_cross_attribution fA fB f hne hAB hnest hBf
  refine ⟨hAf, ?_, ?_⟩
  · intro hmem
    rw [hpdf f hmem] at hAf
    simp at hAf
  · intro hsome
    rw [hsum f hsome] at hAf
    simp at hAf

/-- Witness for C10: the amended attribution theorem applied to sibling
folders `Dok/Ivanov` and `Dok/Ivanov_Petr`, whose names are proper
prefixes but which are not nested. -/
theorem folder_attribution_spec_app :
    strStarts ("Dok/Ivanov" ++ sepStr) "Dok/Ivanov_Petr/cv.pdf" = false ∧
    "Dok/Ivanov_Petr/cv.pdf"
      ∉ (sfc_collect ["Dok/Ivanov_Petr/cv.pdf"] "Dok/Ivanov" (fun _ => true)).2 := by
  have h := (folder_attribution_spec ["Dok/Ivanov_Petr/cv.pdf"] "Dok/Ivanov" "Dok/Ivanov_Petr"
    "Dok/Ivanov_Petr/cv.pdf" (fun _ => true)).2.2
    (by decide) (by decide) (by decide) (by decide)
  exact ⟨h.1, h.2.1⟩

end FileFinderBot
